import Mathlib

/-!
Shallow embedding of the run-orchestration and numeric-helper code of the
`ludwig` repository (files `ludwig/train.py` and `ludwig/utils/math_utils.py`),
together with proofs about it.

Python machine-level conventions used throughout the embedding:
* a fallible Python expression is embedded as `Except PyErr _`; the `PyErr`
  constructors name the Python exception class raised at that point;
* Python 3 true division on nonnegative integers is embedded as division in
  `ℚ`, guarded by an explicit zero test of the denominator (Python raises
  `ZeroDivisionError` there);
* numeric per-epoch statistics are embedded as `ℚ` (only order and equality
  of the collected scalars matter to the orchestration code);
* a Python `dict` is embedded as an association list with first-match lookup,
  a Python `list` as a Lean `List`.
-/

/-- The Python exception classes that the embedded code can raise.
In Python's exception hierarchy, `KeyError` and `IndexError` are the two
subclasses of `LookupError`; `ValueError` and `ZeroDivisionError` are not
`LookupError`s. -/
inductive PyErr where
  | keyError
  | indexError
  | valueError
  | zeroDivisionError
deriving DecidableEq, Repr

/-- `true` exactly for the `PyErr` constructors whose Python exception class
is a subclass of `LookupError` (namely `KeyError` and `IndexError`). -/
def isLookupError : PyErr → Bool
  | .keyError => true
  | .indexError => true
  | _ => false

/-! ## Embedding of `ludwig/utils/math_utils.py` -/

/-- Length of the longest common prefix of two lists.  Applied below to the
*reversed* paths, this embeds the inner loop of `jaccard`
(`math_utils.py` lines 29-36): `for i in range(min(len1, len2))` compares
`path1[-(i+1)]` with `path2[-(i+1)]` and breaks at the first mismatch, i.e.
it counts the matching prefix of the two reversed sequences; the `range`
bound is subsumed because the recursion stops when either list ends. -/
def commonPrefixLen {α : Type} [DecidableEq α] : List α → List α → Nat
  | a :: as, b :: bs => if a = b then commonPrefixLen as bs + 1 else 0
  | _, _ => 0

/-- The `intersection` variable of `jaccard` for the pair `(p1, p2)`:
the length of the run of equal elements walking both paths from their ends
inward (`math_utils.py` lines 29-36). -/
def suffix_overlap {α : Type} [DecidableEq α] (p1 p2 : List α) : Nat :=
  commonPrefixLen p1.reverse p2.reverse

/-- The denominator `size_set_1 + size_set_2 - intersection` of
`math_utils.py` line 38-39.  Since the overlap never exceeds either length
(proved below), truncated `Nat` subtraction agrees with Python's integer
subtraction here. -/
def pairDenom {α : Type} [DecidableEq α] (p1 p2 : List α) : Nat :=
  p1.length + p2.length - suffix_overlap p1 p2

/-- The value of `jaccard_score` for one pair, as a rational (Python 3 true
division), meaningful when `pairDenom p1 p2 ≠ 0`. -/
def pairScoreQ {α : Type} [DecidableEq α] (p1 p2 : List α) : ℚ :=
  (suffix_overlap p1 p2 : ℚ) / (pairDenom p1 p2 : ℚ)

/-- One evaluation of `jaccard_score = intersection / (size_set_1 +
size_set_2 - intersection)` (`math_utils.py` lines 38-39); Python raises
`ZeroDivisionError` when the denominator is `0`. -/
def pairScore {α : Type} [DecidableEq α] (p1 p2 : List α) : Except PyErr ℚ :=
  if pairDenom p1 p2 = 0 then .error .zeroDivisionError
  else .ok (pairScoreQ p1 p2)

/-- The inner `for path2 in sorted_list_2` loop of `jaccard`
(`math_utils.py` lines 25-41), threading the running maximum `acc`
(`max_jaccard_score`); the update is taken only when the new score is
strictly greater (`if jaccard_score > max_jaccard_score`). -/
def jaccardInner {α : Type} [DecidableEq α] (p1 : List α) (acc : ℚ) :
    List (List α) → Except PyErr ℚ
  | [] => .ok acc
  | p2 :: rest =>
    match pairScore p1 p2 with
    | .error e => .error e
    | .ok s => jaccardInner p1 (if acc < s then s else acc) rest

/-- The outer `for path1 in sorted_list_1` loop of `jaccard`
(`math_utils.py` lines 24-41). -/
def jaccardOuter {α : Type} [DecidableEq α] (l2 : List (List α)) (acc : ℚ) :
    List (List α) → Except PyErr ℚ
  | [] => .ok acc
  | p1 :: rest =>
    match jaccardInner p1 acc l2 with
    | .error e => .error e
    | .ok acc2 => jaccardOuter l2 acc2 rest

/-- Embedding of `jaccard(sorted_list_1, sorted_list_2)`
(`math_utils.py` lines 22-43): running maximum started at `0`, scanning all
pairs in loop order, propagating a `ZeroDivisionError` raised mid-scan. -/
def jaccard {α : Type} [DecidableEq α] (l1 l2 : List (List α)) : Except PyErr ℚ :=
  jaccardOuter l2 0 l1

/-- Embedding of `int_type(num_distinct)` (`math_utils.py` lines 51-59),
returning the bit width of the numpy signed integer type chosen by the
threshold chain (`np.int8` ↦ 8, …, `np.int64` ↦ 64). -/
def int_type (num_distinct : Nat) : Nat :=
  if num_distinct < 128 then 8
  else if num_distinct < 32768 then 16
  else if num_distinct < 2147483648 then 32
  else 64

/-- Embedding of `np.max` on a vector: raises a `ValueError` on an empty
input, otherwise the maximum of the elements (left fold of `max` as numpy
reduces the array). -/
noncomputable def npMax : List ℝ → Except PyErr ℝ
  | [] => .error .valueError
  | x :: xs => .ok (xs.foldl max x)

/-- Embedding of `softmax(x, temperature)` (`math_utils.py` lines 46-48)
over the reals (the exact-arithmetic idealization of the IEEE-754 float
computation): `e_x = np.exp((x - np.max(x)) / temperature)` elementwise,
then `e_x / e_x.sum()` elementwise. -/
noncomputable def softmax (x : List ℝ) (temperature : ℝ) : Except PyErr (List ℝ) :=
  match npMax x with
  | .error e => .error e
  | .ok m =>
    let e_x := x.map (fun xi => Real.exp ((xi - m) / temperature))
    .ok (e_x.map (fun ei => ei / e_x.sum))

/-! ## Embedding of `ludwig/train.py` -/

/-- One of the three `TrainingStatistics` series: a mapping from output-field
name to a mapping from measure name to the ordered sequence of per-epoch
scalar values (the JSON structure saved at `train.py` lines 228-230). -/
abbrev Stats := List (String × List (String × List ℚ))

/-- Python `dict` subscript `d[k]`: first matching key, `KeyError` if the key
is absent. -/
def dictGet {β : Type} : List (String × β) → String → Except PyErr β
  | [], _ => .error .keyError
  | (k', v) :: rest, k => if k' = k then .ok v else dictGet rest k

/-- The two-level subscript `stats[field][measure]` used at `train.py`
lines 235-237 and 240-241. -/
def statsLookup (d : Stats) (field measure : String) : Except PyErr (List ℚ) :=
  match dictGet d field with
  | .error e => .error e
  | .ok inner => dictGet inner measure

/-- Python `list` subscript `l[i]` for a nonnegative index: `IndexError` when
the index is out of range (the only indices produced by the embedded code are
nonnegative). -/
def listGet {β : Type} (l : List β) (i : Nat) : Except PyErr β :=
  match l.get? i with
  | some v => .ok v
  | none => .error .indexError

/-- The scan underlying Python's `max(enumerate(xs), key=lambda pair: pair[1])`:
`c` is the current best `(index, value)` pair, `i` the index of the head of
the remaining list; the current best is replaced only when the new value is
strictly greater, so the first occurrence of the maximum wins. -/
def maxEnumAux : Nat → Nat × ℚ → List ℚ → Nat × ℚ
  | _, c, [] => c
  | i, c, x :: xs => maxEnumAux (i + 1) (if c.2 < x then (i, x) else c) xs

/-- Embedding of `max(enumerate(xs), key=lambda pair: pair[1])`
(`train.py` lines 236-239).  CPython's `max` raises
`ValueError: max() arg is an empty sequence` on an empty iterable. -/
def maxEnum : List ℚ → Except PyErr (Nat × ℚ)
  | [] => .error .valueError
  | x :: xs => .ok (maxEnumAux 1 (0, x) xs)

/-- Embedding of the best-epoch selection block of `full_train`
(`train.py` lines 233-241), in the evaluation order of the source:
`train_valisest_stats[validation_field][validation_measure]` is scanned with
`max(enumerate(...), key=...)`, then
`train_testset_stats[validation_field][validation_measure]` is indexed at the
selected epoch.  Returns `(epoch_max_vali_measure, max_vali_measure,
max_vali_measure_epoch_test_measure)`. -/
def best_epoch_selection (valStats testStats : Stats)
    (validation_field validation_measure : String) :
    Except PyErr (Nat × ℚ × ℚ) :=
  match statsLookup valStats validation_field validation_measure with
  | .error e => .error e
  | .ok vs =>
    match maxEnum vs with
    | .error e => .error e
    | .ok iv =>
      match statsLookup testStats validation_field validation_measure with
      | .error e => .error e
      | .ok ts =>
        match listGet ts iv.1 with
        | .error e => .error e
        | .ok tv => .ok (iv.1, iv.2, tv)

/-! ### Directory-name allocation (`get_experiment_dir_name`) -/

/-- Decimal digits of `n`, least significant first, via repeated division by
10; the fuel argument (always called with fuel `> n`) makes the recursion
structural so the function evaluates by kernel reduction. -/
def natDigitsRevAux : Nat → Nat → List Nat
  | _, 0 => []
  | n, fuel + 1 => if n < 10 then [n] else n % 10 :: natDigitsRevAux (n / 10) fuel

def natDigitsRev (n : Nat) : List Nat :=
  natDigitsRevAux n (n + 1)

/-- Value of a least-significant-first digit list; the left inverse used to
show the decimal rendering is injective. -/
def undigits : List Nat → Nat
  | [] => 0
  | d :: ds => d + 10 * undigits ds

/-- Inverse of `Nat.digitChar` on decimal digits. -/
def charDigit (c : Char) : Nat := c.toNat - 48

/-- Embedding of Python's decimal rendering `'{}'.format(n)` / `str(n)` of a
nonnegative integer. -/
def decimalStr (n : Nat) : String :=
  (((natDigitsRev n).map Nat.digitChar).reverse).asString

/-- Embedding of `os.path.join(a, b)` for the shapes produced by this code
(`b` a relative name, `a` without a trailing separator). -/
def pathJoin (a b : String) : String := a ++ "/" ++ b

/-- The `base_dir_name` of `get_experiment_dir_name` (`train.py` lines
385-388): `os.path.join(output_directory, experiment_name + ('_' if
model_name else '') + model_name)`; the underscore is omitted exactly when
`model_name` is the empty string (Python falsiness of `''`). -/
def base_dir_name (output_directory experiment_name model_name : String) : String :=
  pathJoin output_directory
    (experiment_name ++ (if model_name = "" then "" else "_") ++ model_name)

/-- The candidate directory name `'{base}_{suffix}'.format(...)` tried by the
suffix-search loop (`train.py` lines 392-403). -/
def suffixedDir (base : String) (suffix : Nat) : String :=
  base ++ "_" ++ decimalStr suffix

/-- Embedding of `get_experiment_dir_name(output_directory, experiment_name,
model_name)` (`train.py` lines 374-403).  The filesystem is embedded as the
predicate `isdir` (the results of `os.path.isdir` at call time); the `while`
loop returns the first suffix, counting up from `0`, whose directory does not
exist, i.e. `Nat.find` of the hypothesis `h` that some suffix is free (on a
real filesystem only finitely many directories exist, so the loop
terminates). -/
def get_experiment_dir_name (isdir : String → Bool)
    (output_directory experiment_name model_name : String)
    (h : ∃ n, isdir (suffixedDir
      (base_dir_name output_directory experiment_name model_name) n) = false) :
    String :=
  suffixedDir (base_dir_name output_directory experiment_name model_name)
    (Nat.find h)

/-! ### Resume-vs-fresh-start resolution in `full_train` -/

/-- Outcome of the directory-resolution prologue of `full_train`:
the run directory, the `resume` flag later passed to `train`
(`train.py` line 217: `resume=model_resume_path is not None`), and whether
the missing-resume-path condition was logged (`train.py` lines 144-147). -/
structure ResolveOutcome where
  experiment_dir_name : String
  resumeFlag : Bool
  warned : Bool
deriving DecidableEq, Repr

/-- Embedding of `full_train`'s directory setup (`train.py` lines 139-159)
together with the `resume` argument of the later `train` call (line 217).
`pathExists` embeds `os.path.exists`, `isdir` embeds `os.path.isdir` inside
the allocator.  If a resume path is supplied and exists, it is reused as the
run directory and `resume=True` is passed; if it is supplied but does not
exist, the condition is logged, `model_resume_path` is set to `None`, a new
suffixed directory is allocated and `resume=False` is passed; with no
resume path, a new suffixed directory is allocated. -/
def resolve_experiment_dir (pathExists isdir : String → Bool)
    (model_resume_path : Option String)
    (output_directory experiment_name model_name : String)
    (h : ∃ n, isdir (suffixedDir
      (base_dir_name output_directory experiment_name model_name) n) = false) :
    ResolveOutcome :=
  match model_resume_path with
  | some p =>
    if pathExists p then
      ⟨p, true, false⟩
    else
      ⟨get_experiment_dir_name isdir output_directory experiment_name model_name h,
        false, true⟩
  | none =>
    ⟨get_experiment_dir_name isdir output_directory experiment_name model_name h,
      false, false⟩

/-! ### The best-epoch log message -/

/-- Substitution of one positional argument into a `str.format` template:
each empty replacement field `\x7b\x7d` is replaced by the argument, every
other character is kept.  A template containing no replacement field is
returned unchanged (Python ignores surplus positional arguments). -/
def formatChars (arg : List Char) : List Char → List Char
  | [] => []
  | '\x7b' :: '\x7d' :: rest => arg ++ formatChars arg rest
  | c :: rest => c :: formatChars arg rest

/-- `template.format(arg)` for a single positional argument. -/
def formatOne (template : String) (arg : String) : String :=
  (formatChars arg.data template.data).asString

/-- Embedding of the message built at `train.py` lines 244-246:
`'Best validation model epoch:'.format(epoch_max_vali_measure + 1)`.
The template contains no replacement field. -/
def best_epoch_log_message (epoch_max_vali_measure : Nat) : String :=
  formatOne "Best validation model epoch:" (decimalStr (epoch_max_vali_measure + 1))

/-! ## Helper lemmas -/

theorem string_data_ext (s t : String) (h : s.data = t.data) : s = t := by
  cases s; cases t; exact congrArg String.mk h

theorem string_append_left_cancel (s a b : String) (h : s ++ a = s ++ b) : a = b := by
  have h2 : s.data ++ a.data = s.data ++ b.data := by
    rw [← String.data_append, ← String.data_append, h]
  exact string_data_ext a b (List.append_cancel_left h2)

theorem undigits_natDigitsRevAux (fuel : Nat) : ∀ n : Nat, n < fuel →
    undigits (natDigitsRevAux n fuel) = n := by
  induction fuel with
  | zero => intro n h; omega
  | succ fuel ih =>
    intro n h
    rw [natDigitsRevAux]
    split
    · simp [undigits]
    · rename_i hn
      have hdiv : n / 10 < n := Nat.div_lt_self (by omega) (by norm_num)
      simp only [undigits]
      rw [ih (n / 10) (by omega)]
      omega

theorem undigits_natDigitsRev (n : Nat) : undigits (natDigitsRev n) = n :=
  undigits_natDigitsRevAux (n + 1) n (Nat.lt_succ_self n)

theorem natDigitsRevAux_lt_ten (fuel : Nat) : ∀ n : Nat,
    ∀ d ∈ natDigitsRevAux n fuel, d < 10 := by
  induction fuel with
  | zero => intro n d hd; simp [natDigitsRevAux] at hd
  | succ fuel ih =>
    intro n d hd
    rw [natDigitsRevAux] at hd
    split at hd
    · rename_i hn
      simp at hd
      omega
    · simp at hd
      rcases hd with h1 | h1
      · omega
      · exact ih (n / 10) d h1

theorem charDigit_digitChar (d : Nat) (h : d < 10) :
    charDigit (Nat.digitChar d) = d := by
  interval_cases d <;> rfl

theorem digits_map_char_inv (l : List Nat) (hl : ∀ d ∈ l, d < 10) :
    (l.map Nat.digitChar).map charDigit = l := by
  induction l with
  | nil => rfl
  | cons d ds ih =>
    simp only [List.map_cons]
    rw [charDigit_digitChar d (hl d (by simp)), ih (fun x hx => hl x (by simp [hx]))]

theorem decimalStr_injective (m n : Nat) (h : decimalStr m = decimalStr n) : m = n := by
  have hd : (((natDigitsRev m).map Nat.digitChar).reverse)
      = (((natDigitsRev n).map Nat.digitChar).reverse) := congrArg String.data h
  have hmap : (natDigitsRev m).map Nat.digitChar = (natDigitsRev n).map Nat.digitChar :=
    List.reverse_injective hd
  have h1 : natDigitsRev m = natDigitsRev n := by
    rw [← digits_map_char_inv (natDigitsRev m) (natDigitsRevAux_lt_ten (m + 1) m),
      ← digits_map_char_inv (natDigitsRev n) (natDigitsRevAux_lt_ten (n + 1) n), hmap]
  have h2 := congrArg undigits h1
  rwa [undigits_natDigitsRev, undigits_natDigitsRev] at h2

theorem suffixedDir_injective (base : String) (m n : Nat)
    (h : suffixedDir base m = suffixedDir base n) : m = n :=
  decimalStr_injective m n
    (string_append_left_cancel (base ++ "_") (decimalStr m) (decimalStr n) h)

/-! ## Claim C6 -/

/-- Claim C6: `int_type` returns the signed integer width among 8/16/32/64
bits determined by the thresholds 128, 32768 and 2147483648 (8-bit for
`n < 128`, 16-bit for `n < 32768`, 32-bit for `n < 2147483648`, else
64-bit), and the returned width is monotonically non-decreasing in the
count `n`. -/
theorem int_type_thresholds_monotone (n : Nat) :
    ((n < 128 → int_type n = 8) ∧
     (128 ≤ n → n < 32768 → int_type n = 16) ∧
     (32768 ≤ n → n < 2147483648 → int_type n = 32) ∧
     (2147483648 ≤ n → int_type n = 64)) ∧
    (∀ m, m ≤ n → int_type m ≤ int_type n) ∧
    (int_type n = 8 ∨ int_type n = 16 ∨ int_type n = 32 ∨ int_type n = 64) := by
  refine ⟨⟨?_, ?_, ?_, ?_⟩, ?_, ?_⟩
  · intro h1; simp only [int_type]; split_ifs <;> omega
  · intro h1 h2; simp only [int_type]; split_ifs <;> omega
  · intro h1 h2; simp only [int_type]; split_ifs <;> omega
  · intro h1; simp only [int_type]; split_ifs <;> omega
  · intro m hm; simp only [int_type]; split_ifs <;> omega
  · simp only [int_type]; split_ifs <;> simp

theorem int_type_thresholds_monotone_witness :
    int_type 200 = 16 ∧ int_type 64 ≤ int_type 200 :=
  ⟨(int_type_thresholds_monotone 200).1.2.1 (by norm_num) (by norm_num),
   (int_type_thresholds_monotone 200).2.1 64 (by norm_num)⟩

/-! ## Claims C3 and C4 -/

theorem get_experiment_dir_name_eq_of_free_zero (isdir : String → Bool)
    (od en mn : String)
    (h : ∃ n, isdir (suffixedDir (base_dir_name od en mn) n) = false)
    (h0 : isdir (suffixedDir (base_dir_name od en mn) 0) = false) :
    get_experiment_dir_name isdir od en mn h
      = suffixedDir (base_dir_name od en mn) 0 := by
  simp only [get_experiment_dir_name]
  exact congrArg _ ((Nat.find_eq_zero h).mpr h0)

/-- Claim C3: directory-name allocation returns
`<output_directory>/<experiment_name>_<model_name>_<suffix>` (underscore
before an empty `model_name` omitted) where the suffix is the smallest
non-negative integer whose directory does not exist at call time; and a
second allocation performed after the first returned directory has been
created (`isdir2` is `isdir` extended with `name1`) returns a distinct name
with a strictly greater suffix. -/
theorem get_experiment_dir_name_spec (isdir isdir2 : String → Bool)
    (od en mn name1 : String)
    (h1 : ∃ n, isdir (suffixedDir (base_dir_name od en mn) n) = false)
    (h2 : ∃ n, isdir2 (suffixedDir (base_dir_name od en mn) n) = false)
    (hname1 : name1 = get_experiment_dir_name isdir od en mn h1)
    (hisdir2 : ∀ s, isdir2 s = (isdir s || (s == name1))) :
    (mn ≠ "" → get_experiment_dir_name isdir od en mn h1
        = od ++ "/" ++ en ++ "_" ++ mn ++ "_" ++ decimalStr (Nat.find h1)) ∧
    (mn = "" → get_experiment_dir_name isdir od en mn h1
        = od ++ "/" ++ en ++ "_" ++ decimalStr (Nat.find h1)) ∧
    isdir (get_experiment_dir_name isdir od en mn h1) = false ∧
    (∀ m, m < Nat.find h1 →
      isdir (suffixedDir (base_dir_name od en mn) m) = true) ∧
    Nat.find h1 < Nat.find h2 ∧
    get_experiment_dir_name isdir2 od en mn h2
      ≠ get_experiment_dir_name isdir od en mn h1 := by
  have hfind2 : Nat.find h1 < Nat.find h2 := by
    by_contra hle
    push_neg at hle
    have hspec2 := Nat.find_spec h2
    rw [hisdir2] at hspec2
    have hparts := Bool.or_eq_false_iff.mp hspec2
    rcases Nat.lt_or_ge (Nat.find h2) (Nat.find h1) with hlt | hge
    · have := Nat.find_min h1 hlt
      simp only [Bool.not_eq_false] at this
      rw [this] at hparts
      exact Bool.noConfusion hparts.1
    · have heq : Nat.find h2 = Nat.find h1 := le_antisymm hle hge
      have : (suffixedDir (base_dir_name od en mn) (Nat.find h2) == name1) = true := by
        rw [heq, hname1]
        exact beq_self_eq_true _
      rw [this] at hparts
      exact Bool.noConfusion hparts.2
  refine ⟨?_, ?_, ?_, ?_, hfind2, ?_⟩
  · intro hmn
    apply string_data_ext
    simp [get_experiment_dir_name, suffixedDir, base_dir_name, pathJoin,
      String.data_append, hmn]
  · intro hmn
    apply string_data_ext
    simp [get_experiment_dir_name, suffixedDir, base_dir_name, pathJoin,
      String.data_append, hmn]
  · exact Nat.find_spec h1
  · intro m hm
    have := Nat.find_min h1 hm
    simpa using this
  · intro heq
    have := suffixedDir_injective (base_dir_name od en mn) (Nat.find h2) (Nat.find h1) heq
    omega

theorem get_experiment_dir_name_spec_witness :
    Nat.find (⟨0, rfl⟩ : ∃ n, (fun _ => false : String → Bool)
        (suffixedDir (base_dir_name "results" "experiment" "run") n) = false)
      < Nat.find (⟨1, by decide⟩ : ∃ n,
        (fun s => false || (s == "results/experiment_run_0"))
        (suffixedDir (base_dir_name "results" "experiment" "run") n) = false) ∧
    get_experiment_dir_name (fun s => false || (s == "results/experiment_run_0"))
        "results" "experiment" "run" ⟨1, by decide⟩
      ≠ get_experiment_dir_name (fun _ => false) "results" "experiment" "run" ⟨0, rfl⟩ :=
  (get_experiment_dir_name_spec (fun _ => false)
    (fun s => false || (s == "results/experiment_run_0"))
    "results" "experiment" "run" "results/experiment_run_0"
    ⟨0, rfl⟩ ⟨1, by decide⟩
    (Eq.trans (by decide)
      (get_experiment_dir_name_eq_of_free_zero (fun _ => false)
        "results" "experiment" "run" ⟨0, rfl⟩ rfl).symm)
    (fun _ => rfl)).2.2.2.2

/-- Claim C4: if a resume path is supplied but does not exist, orchestration
raises no error: it records the condition (`warned = true`), uses the same
freshly allocated suffixed directory a fresh start would use, and passes
`resume = false` to the training call; if the resume path exists, that path
itself becomes the run directory and `resume = true` is passed, with no new
suffixed directory allocated. -/
theorem resolve_experiment_dir_spec (pathExists isdir : String → Bool)
    (od en mn p : String)
    (h : ∃ n, isdir (suffixedDir (base_dir_name od en mn) n) = false) :
    (pathExists p = false →
      resolve_experiment_dir pathExists isdir (some p) od en mn h =
        ⟨get_experiment_dir_name isdir od en mn h, false, true⟩ ∧
      (resolve_experiment_dir pathExists isdir (some p) od en mn h).experiment_dir_name =
        (resolve_experiment_dir pathExists isdir none od en mn h).experiment_dir_name ∧
      (resolve_experiment_dir pathExists isdir (some p) od en mn h).resumeFlag = false) ∧
    (pathExists p = true →
      (resolve_experiment_dir pathExists isdir (some p) od en mn h).experiment_dir_name = p ∧
      (resolve_experiment_dir pathExists isdir (some p) od en mn h).resumeFlag = true ∧
      (resolve_experiment_dir pathExists isdir (some p) od en mn h).warned = false) := by
  constructor
  · intro hp
    simp [resolve_experiment_dir, hp]
  · intro hp
    simp [resolve_experiment_dir, hp]

theorem resolve_experiment_dir_spec_witness :
    resolve_experiment_dir (fun _ => false) (fun _ => false) (some "missing")
        "results" "experiment" "run" ⟨0, rfl⟩ =
      ⟨get_experiment_dir_name (fun _ => false) "results" "experiment" "run" ⟨0, rfl⟩,
        false, true⟩ ∧
    (resolve_experiment_dir (fun _ => false) (fun _ => false) (some "missing")
        "results" "experiment" "run" ⟨0, rfl⟩).experiment_dir_name =
      (resolve_experiment_dir (fun _ => false) (fun _ => false) none
        "results" "experiment" "run" ⟨0, rfl⟩).experiment_dir_name ∧
    (resolve_experiment_dir (fun _ => false) (fun _ => false) (some "missing")
        "results" "experiment" "run" ⟨0, rfl⟩).resumeFlag = false :=
  (resolve_experiment_dir_spec (fun _ => false) (fun _ => false)
    "results" "experiment" "run" "missing" ⟨0, rfl⟩).1 rfl

/-! ## Claims C1, C2 and C9: best-epoch selection -/

theorem getD_mem_of_lt {α : Type} (l : List α) (j : Nat) (d : α)
    (h : j < l.length) : l.getD j d ∈ l := by
  rw [List.getD_eq_get?, List.get?_eq_get h]
  simp only [Option.getD_some]
  exact List.get_mem l j h

theorem maxEnumAux_spec (l : List ℚ) : ∀ (i : Nat) (c : Nat × ℚ),
    c.2 ≤ (maxEnumAux i c l).2 ∧
    (∀ x ∈ l, x ≤ (maxEnumAux i c l).2) ∧
    (maxEnumAux i c l = c ∨
      ∃ j, j < l.length ∧ (maxEnumAux i c l).1 = i + j ∧
        (maxEnumAux i c l).2 = l.getD j 0 ∧ c.2 < (maxEnumAux i c l).2 ∧
        ∀ k, k < j → l.getD k 0 < (maxEnumAux i c l).2) := by
  induction l with
  | nil =>
    intro i c
    simp [maxEnumAux]
  | cons x xs ih =>
    intro i c
    by_cases hcx : c.2 < x
    · have H := ih (i + 1) (i, x)
      simp only [maxEnumAux, if_pos hcx]
      refine ⟨le_trans (le_of_lt hcx) H.1, ?_, ?_⟩
      · intro y hy
        rcases List.mem_cons.mp hy with rfl | hy2
        · exact H.1
        · exact H.2.1 y hy2
      · rcases H.2.2 with heq | ⟨j, hj, hj1, hj2, hj3, hj4⟩
        · refine Or.inr ⟨0, by simp, ?_, ?_, ?_, ?_⟩
          · rw [heq]; simp
          · rw [heq, List.getD_cons_zero]
          · rw [heq]; exact hcx
          · intro k hk; omega
        · refine Or.inr ⟨j + 1, by simp only [List.length_cons]; omega, ?_, ?_, ?_, ?_⟩
          · rw [hj1]; omega
          · rw [List.getD_cons_succ]; exact hj2
          · exact lt_of_lt_of_le hcx H.1
          · intro k hk
            cases k with
            | zero => rw [List.getD_cons_zero]; exact hj3
            | succ k => rw [List.getD_cons_succ]; exact hj4 k (by omega)
    · have H := ih (i + 1) c
      simp only [maxEnumAux, if_neg hcx]
      refine ⟨H.1, ?_, ?_⟩
      · intro y hy
        rcases List.mem_cons.mp hy with rfl | hy2
        · exact le_trans (le_of_not_lt hcx) H.1
        · exact H.2.1 y hy2
      · rcases H.2.2 with heq | ⟨j, hj, hj1, hj2, hj3, hj4⟩
        · exact Or.inl heq
        · refine Or.inr ⟨j + 1, by simp only [List.length_cons]; omega, ?_, ?_, hj3, ?_⟩
          · rw [hj1]; omega
          · rw [List.getD_cons_succ]; exact hj2
          · intro k hk
            cases k with
            | zero => rw [List.getD_cons_zero]; exact lt_of_le_of_lt (le_of_not_lt hcx) hj3
            | succ k => rw [List.getD_cons_succ]; exact hj4 k (by omega)

theorem maxEnum_spec (vs : List ℚ) (hne : vs ≠ []) :
    ∃ i v, maxEnum vs = .ok (i, v) ∧ i < vs.length ∧ vs.getD i 0 = v ∧
      (∀ j, j < vs.length → vs.getD j 0 ≤ v) ∧
      (∀ j, j < i → vs.getD j 0 < v) := by
  cases vs with
  | nil => exact absurd rfl hne
  | cons x xs =>
    have H := maxEnumAux_spec xs 1 (0, x)
    refine ⟨(maxEnumAux 1 (0, x) xs).1, (maxEnumAux 1 (0, x) xs).2, rfl, ?_, ?_, ?_, ?_⟩
    · rcases H.2.2 with heq | ⟨j, hj, hj1, _, _, _⟩
      · rw [heq]; simp
      · rw [hj1]; simp only [List.length_cons]; omega
    · rcases H.2.2 with heq | ⟨j, hj, hj1, hj2, _, _⟩
      · rw [heq, List.getD_cons_zero]
      · rw [hj1, show 1 + j = j + 1 by omega, List.getD_cons_succ]
        exact hj2.symm
    · intro j hj
      cases j with
      | zero => rw [List.getD_cons_zero]; exact H.1
      | succ j =>
        rw [List.getD_cons_succ]
        exact H.2.1 (xs.getD j 0)
          (getD_mem_of_lt xs j 0 (by simp only [List.length_cons] at hj; omega))
    · intro j hjlt
      rcases H.2.2 with heq | ⟨j', hj', hj1, hj2, hj3, hj4⟩
      · rw [heq] at hjlt; omega
      · rw [hj1] at hjlt
        cases j with
        | zero => rw [List.getD_cons_zero]; exact hj3
        | succ j => rw [List.getD_cons_succ]; exact hj4 j (by omega)

theorem listGet_ok {β : Type} (l : List β) (i : Nat) (d : β) (h : i < l.length) :
    listGet l i = .ok (l.getD i d) := by
  simp only [listGet]
  rw [List.get?_eq_get h, List.getD_eq_get?, List.get?_eq_get h]
  simp

/-- Claim C1: for a non-empty validation series at the configured field and
measure, best-epoch selection returns the 0-based index of the maximum
value, ties broken by the earliest (lowest) index, together with that
maximum and the value of the test series for the same field and measure at
exactly that index. -/
theorem best_epoch_selection_spec (valStats testStats : Stats)
    (field measure : String) (vs ts : List ℚ)
    (hv : statsLookup valStats field measure = .ok vs)
    (ht : statsLookup testStats field measure = .ok ts)
    (hne : vs ≠ []) (hlen : vs.length ≤ ts.length) :
    ∃ i, i < vs.length ∧
      best_epoch_selection valStats testStats field measure =
        .ok (i, vs.getD i 0, ts.getD i 0) ∧
      (∀ j, j < vs.length → vs.getD j 0 ≤ vs.getD i 0) ∧
      (∀ j, j < i → vs.getD j 0 < vs.getD i 0) := by
  obtain ⟨i, v, hmax, hi, hgd, hub, hfirst⟩ := maxEnum_spec vs hne
  refine ⟨i, hi, ?_, ?_, ?_⟩
  · simp only [best_epoch_selection, hv, hmax, ht,
      listGet_ok ts i 0 (lt_of_lt_of_le hi hlen)]
    rw [hgd]
  · intro j hj; rw [hgd]; exact hub j hj
  · intro j hj; rw [hgd]; exact hfirst j hj

theorem best_epoch_selection_spec_witness :
    ∃ i, i < ([1/2, 9/10, 7/10] : List ℚ).length ∧
      best_epoch_selection [("y", [("accuracy", [1/2, 9/10, 7/10])])]
        [("y", [("accuracy", [2/5, 4/5, 3/5])])] "y" "accuracy" =
        .ok (i, ([1/2, 9/10, 7/10] : List ℚ).getD i 0,
          ([2/5, 4/5, 3/5] : List ℚ).getD i 0) ∧
      (∀ j, j < ([1/2, 9/10, 7/10] : List ℚ).length →
        ([1/2, 9/10, 7/10] : List ℚ).getD j 0 ≤ ([1/2, 9/10, 7/10] : List ℚ).getD i 0) ∧
      (∀ j, j < i →
        ([1/2, 9/10, 7/10] : List ℚ).getD j 0 < ([1/2, 9/10, 7/10] : List ℚ).getD i 0) :=
  best_epoch_selection_spec [("y", [("accuracy", [1/2, 9/10, 7/10])])]
    [("y", [("accuracy", [2/5, 4/5, 3/5])])] "y" "accuracy"
    [1/2, 9/10, 7/10] [2/5, 4/5, 3/5] rfl rfl (by simp) (by simp)

theorem dictGet_error_eq {β : Type} (d : List (String × β)) (k : String)
    (e : PyErr) (h : dictGet d k = .error e) : e = .keyError := by
  induction d with
  | nil =>
    simp only [dictGet] at h
    exact (Except.error.inj h).symm
  | cons kv rest ih =>
    cases kv with
    | mk k' v =>
      simp only [dictGet] at h
      split at h
      · exact absurd h (by simp)
      · exact ih h

theorem statsLookup_error_eq (d : Stats) (f m : String) (e : PyErr)
    (h : statsLookup d f m = .error e) : e = .keyError := by
  simp only [statsLookup] at h
  split at h
  · rename_i e1 he1
    rw [dictGet_error_eq d f e1 he1] at h
    exact (Except.error.inj h).symm
  · exact dictGet_error_eq _ m e h

/-- Claim C2 (amended): best-epoch selection fails with a `LookupError`-kind
condition (`KeyError`) whenever the validation field or measure is absent
from the validation or test statistics, and fails with a `ValueError`-kind
condition (CPython's `max()` applied to an empty sequence) — not an
`IndexError`-kind condition — whenever the selected validation series is
empty; it returns no result in either case. -/
theorem best_epoch_selection_failures (valStats testStats : Stats)
    (field measure : String) :
    (∀ e, statsLookup valStats field measure = .error e →
      best_epoch_selection valStats testStats field measure = .error e ∧
      isLookupError e = true) ∧
    (∀ vs e, statsLookup valStats field measure = .ok vs → vs ≠ [] →
      statsLookup testStats field measure = .error e →
      best_epoch_selection valStats testStats field measure = .error e ∧
      isLookupError e = true) ∧
    (statsLookup valStats field measure = .ok [] →
      best_epoch_selection valStats testStats field measure =
        .error PyErr.valueError) := by
  refine ⟨?_, ?_, ?_⟩
  · intro e he
    refine ⟨by simp only [best_epoch_selection, he], ?_⟩
    rw [statsLookup_error_eq valStats field measure e he]
    rfl
  · intro vs e hvs hne hte
    refine ⟨?_, ?_⟩
    · cases vs with
      | nil => exact absurd rfl hne
      | cons x xs => simp only [best_epoch_selection, hvs, maxEnum, hte]
    · rw [statsLookup_error_eq testStats field measure e hte]
      rfl
  · intro hvs
    simp only [best_epoch_selection, hvs, maxEnum]

theorem best_epoch_selection_failures_witness :
    (best_epoch_selection [("y", [("loss", [0])])] [] "y" "accuracy" =
      .error PyErr.keyError ∧ isLookupError PyErr.keyError = true) ∧
    best_epoch_selection [("y", [("accuracy", [])])] [("y", [("accuracy", [])])]
      "y" "accuracy" = .error PyErr.valueError :=
  ⟨(best_epoch_selection_failures [("y", [("loss", [0])])] [] "y" "accuracy").1
      PyErr.keyError rfl,
   (best_epoch_selection_failures [("y", [("accuracy", [])])]
      [("y", [("accuracy", [])])] "y" "accuracy").2.2 rfl⟩

/-- Claim C2 counterexample: with the validation field and measure present
but the series empty (zero completed epochs), the selection fails with a
`ValueError` (CPython's `max()` on an empty sequence), which is neither an
`IndexError` nor any `LookupError`-kind condition, contradicting the
claimed `IndexError`-kind failure. -/
theorem best_epoch_selection_empty_series_counterexample :
    best_epoch_selection [("y", [("accuracy", [])])] [("y", [("accuracy", [])])]
      "y" "accuracy" = .error PyErr.valueError ∧
    PyErr.valueError ≠ PyErr.indexError ∧
    isLookupError PyErr.valueError = false :=
  ⟨rfl, by decide, rfl⟩

/-- Claim C9 (code bug): the source computes the 1-indexed epoch
`epoch_max_vali_measure + 1` but interpolates it into the template
`'Best validation model epoch:'`, which contains no replacement field, so
the logged message is the bare template for every selected epoch and the
epoch number is dropped; the decimal rendering `"2"` that the spec expects
for selected index 1 appears nowhere in the message. -/
theorem best_epoch_log_message_drops_epoch :
    best_epoch_log_message 1 = "Best validation model epoch:" ∧
    best_epoch_log_message 1 = best_epoch_log_message 4 ∧
    decimalStr (1 + 1) = "2" := by
  refine ⟨by decide, by decide, by decide⟩

/-! ## Claims C5 and C10: the path-similarity score -/

theorem commonPrefixLen_le_left {α : Type} [DecidableEq α] :
    ∀ l1 l2 : List α, commonPrefixLen l1 l2 ≤ l1.length := by
  intro l1
  induction l1 with
  | nil => intro l2; cases l2 <;> simp [commonPrefixLen]
  | cons a as ih =>
    intro l2
    cases l2 with
    | nil => simp [commonPrefixLen]
    | cons b bs =>
      by_cases hab : a = b
      · simp only [commonPrefixLen, if_pos hab, List.length_cons]
        exact Nat.succ_le_succ (ih bs)
      · simp [commonPrefixLen, hab]

theorem commonPrefixLen_le_right {α : Type} [DecidableEq α] :
    ∀ l1 l2 : List α, commonPrefixLen l1 l2 ≤ l2.length := by
  intro l1
  induction l1 with
  | nil => intro l2; cases l2 <;> simp [commonPrefixLen]
  | cons a as ih =>
    intro l2
    cases l2 with
    | nil => simp [commonPrefixLen]
    | cons b bs =>
      by_cases hab : a = b
      · simp only [commonPrefixLen, if_pos hab, List.length_cons]
        exact Nat.succ_le_succ (ih bs)
      · simp [commonPrefixLen, hab]

theorem suffix_overlap_le_left {α : Type} [DecidableEq α] (p1 p2 : List α) :
    suffix_overlap p1 p2 ≤ p1.length := by
  have h := commonPrefixLen_le_left p1.reverse p2.reverse
  simpa [suffix_overlap] using h

theorem suffix_overlap_le_right {α : Type} [DecidableEq α] (p1 p2 : List α) :
    suffix_overlap p1 p2 ≤ p2.length := by
  have h := commonPrefixLen_le_right p1.reverse p2.reverse
  simpa [suffix_overlap] using h

theorem pairDenom_eq_zero_iff {α : Type} [DecidableEq α] (p1 p2 : List α) :
    pairDenom p1 p2 = 0 ↔ (p1 = [] ∧ p2 = []) := by
  have h1 := suffix_overlap_le_left p1 p2
  have h2 := suffix_overlap_le_right p1 p2
  unfold pairDenom
  constructor
  · intro h
    have hlen : p1.length = 0 ∧ p2.length = 0 := by omega
    exact ⟨List.length_eq_zero.mp hlen.1, List.length_eq_zero.mp hlen.2⟩
  · rintro ⟨rfl, rfl⟩
    rfl

theorem pairScoreQ_nonneg {α : Type} [DecidableEq α] (p1 p2 : List α) :
    0 ≤ pairScoreQ p1 p2 := by
  unfold pairScoreQ
  exact div_nonneg (by positivity) (by positivity)

theorem pairScoreQ_le_one {α : Type} [DecidableEq α] (p1 p2 : List α)
    (h : pairDenom p1 p2 ≠ 0) : pairScoreQ p1 p2 ≤ 1 := by
  unfold pairScoreQ
  rw [div_le_one (by exact_mod_cast Nat.pos_of_ne_zero h)]
  have h1 := suffix_overlap_le_left p1 p2
  have h2 := suffix_overlap_le_right p1 p2
  have h3 : suffix_overlap p1 p2 ≤ pairDenom p1 p2 := by
    unfold pairDenom; omega
  exact_mod_cast h3

theorem jaccardInner_spec {α : Type} [DecidableEq α] (p1 : List α)
    (l2 : List (List α)) : ∀ acc : ℚ, (∀ p2 ∈ l2, pairDenom p1 p2 ≠ 0) →
    ∃ r, jaccardInner p1 acc l2 = .ok r ∧ acc ≤ r ∧
      (r = acc ∨ ∃ p2 ∈ l2, r = pairScoreQ p1 p2) ∧
      (∀ p2 ∈ l2, pairScoreQ p1 p2 ≤ r) := by
  induction l2 with
  | nil =>
    intro acc _
    exact ⟨acc, rfl, le_refl acc, Or.inl rfl, by simp⟩
  | cons p2 rest ih =>
    intro acc h
    have hd : pairDenom p1 p2 ≠ 0 := h p2 (by simp)
    have hps : pairScore p1 p2 = .ok (pairScoreQ p1 p2) := by
      simp [pairScore, hd]
    obtain ⟨r, hr, hle, hattain, hub⟩ :=
      ih (if acc < pairScoreQ p1 p2 then pairScoreQ p1 p2 else acc)
        (fun q hq => h q (by simp [hq]))
    have hacc_step : acc ≤ (if acc < pairScoreQ p1 p2 then pairScoreQ p1 p2 else acc) := by
      split
      · exact le_of_lt (by assumption)
      · exact le_refl acc
    have hs_step : pairScoreQ p1 p2 ≤
        (if acc < pairScoreQ p1 p2 then pairScoreQ p1 p2 else acc) := by
      split
      · exact le_refl _
      · exact le_of_not_lt (by assumption)
    refine ⟨r, ?_, le_trans hacc_step hle, ?_, ?_⟩
    · simp only [jaccardInner, hps]
      exact hr
    · rcases hattain with heq | ⟨q, hq, hqe⟩
      · by_cases hacc : acc < pairScoreQ p1 p2
        · exact Or.inr ⟨p2, by simp, by rw [heq, if_pos hacc]⟩
        · exact Or.inl (by rw [heq, if_neg hacc])
      · exact Or.inr ⟨q, by simp [hq], hqe⟩
    · intro q hq
      rcases List.mem_cons.mp hq with rfl | hq2
      · exact le_trans hs_step hle
      · exact hub q hq2

theorem jaccardOuter_spec {α : Type} [DecidableEq α] (l2 : List (List α))
    (l1 : List (List α)) : ∀ acc : ℚ,
    (∀ p1 ∈ l1, ∀ p2 ∈ l2, pairDenom p1 p2 ≠ 0) →
    ∃ r, jaccardOuter l2 acc l1 = .ok r ∧ acc ≤ r ∧
      (r = acc ∨ ∃ p1 ∈ l1, ∃ p2 ∈ l2, r = pairScoreQ p1 p2) ∧
      (∀ p1 ∈ l1, ∀ p2 ∈ l2, pairScoreQ p1 p2 ≤ r) := by
  induction l1 with
  | nil =>
    intro acc _
    exact ⟨acc, rfl, le_refl acc, Or.inl rfl, by simp⟩
  | cons p1 rest ih =>
    intro acc h
    obtain ⟨r1, hr1, hle1, hat1, hub1⟩ :=
      jaccardInner_spec p1 l2 acc (h p1 (by simp))
    obtain ⟨r, hr, hle, hat, hub⟩ := ih r1 (fun q hq => h q (by simp [hq]))
    refine ⟨r, ?_, le_trans hle1 hle, ?_, ?_⟩
    · simp only [jaccardOuter, hr1]
      exact hr
    · rcases hat with heq | ⟨q1, hq1, q2, hq2, hqe⟩
      · rcases hat1 with heq1 | ⟨q2, hq2, hqe1⟩
        · exact Or.inl (by rw [heq, heq1])
        · exact Or.inr ⟨p1, by simp, q2, hq2, by rw [heq]; exact hqe1⟩
      · exact Or.inr ⟨q1, by simp [hq1], q2, hq2, hqe⟩
    · intro q1 hq1 q2 hq2
      rcases List.mem_cons.mp hq1 with rfl | hq1r
      · exact le_trans (hub1 q2 hq2) hle
      · exact hub q1 hq1r q2 hq2

/-- Claim C5 counterexample: when an empty path of the first collection is
paired with an empty path of the second, the pair's denominator
`len(path1) + len(path2) - count` is `0` and the scan raises
`ZeroDivisionError` instead of returning the claimed maximum (the first
pair `([1], [])` is scored `0` before the failing pair is reached). -/
theorem jaccard_zero_division_counterexample :
    jaccard ([[1], []] : List (List ℕ)) [[]] = .error PyErr.zeroDivisionError ∧
    (Except.error PyErr.zeroDivisionError ≠ (Except.ok 0 : Except PyErr ℚ)) := by
  constructor
  · norm_num [jaccard, jaccardOuter, jaccardInner, pairScore, pairScoreQ,
      pairDenom, suffix_overlap, commonPrefixLen]
  · intro h
    exact Except.noConfusion h

/-- Claim C5 (amended): provided no empty path of the first collection is
paired with an empty path of the second (otherwise the division fails, see
the counterexample), the similarity score returns exactly the maximum over
all pairs `(path1, path2)` of `c / (len(path1) + len(path2) - c)`, where `c`
is the longest-common-suffix run length: the returned value bounds every
pair's score from above and is attained by some pair unless it is the
initial running maximum `0`; it is `0` whenever either collection is
empty. -/
theorem jaccard_max_suffix_overlap_score {α : Type} [DecidableEq α]
    (l1 l2 : List (List α))
    (h : ∀ p1 ∈ l1, ∀ p2 ∈ l2, ¬(p1 = [] ∧ p2 = [])) :
    ∃ v, jaccard l1 l2 = .ok v ∧
      (∀ p1 ∈ l1, ∀ p2 ∈ l2, pairScoreQ p1 p2 ≤ v) ∧
      (v = 0 ∨ ∃ p1 ∈ l1, ∃ p2 ∈ l2, v = pairScoreQ p1 p2) ∧
      ((l1 = [] ∨ l2 = []) → v = 0) := by
  have hden : ∀ p1 ∈ l1, ∀ p2 ∈ l2, pairDenom p1 p2 ≠ 0 := by
    intro p1 h1 p2 h2 hz
    exact h p1 h1 p2 h2 ((pairDenom_eq_zero_iff p1 p2).mp hz)
  obtain ⟨r, hr, hle, hat, hub⟩ := jaccardOuter_spec l2 l1 0 hden
  refine ⟨r, hr, hub, hat, ?_⟩
  intro hemp
  rcases hat with h0 | ⟨q1, hq1, q2, hq2, _⟩
  · exact h0
  · rcases hemp with rfl | rfl
    · simp at hq1
    · simp at hq2

theorem jaccard_max_suffix_overlap_score_witness :
    ∃ v, jaccard ([[1, 2, 3], [4, 5]] : List (List ℕ)) [[9, 2, 3]] = .ok v ∧
      (∀ p1 ∈ ([[1, 2, 3], [4, 5]] : List (List ℕ)), ∀ p2 ∈ ([[9, 2, 3]] : List (List ℕ)),
        pairScoreQ p1 p2 ≤ v) ∧
      (v = 0 ∨ ∃ p1 ∈ ([[1, 2, 3], [4, 5]] : List (List ℕ)),
        ∃ p2 ∈ ([[9, 2, 3]] : List (List ℕ)), v = pairScoreQ p1 p2) ∧
      ((([[1, 2, 3], [4, 5]] : List (List ℕ)) = [] ∨
        ([[9, 2, 3]] : List (List ℕ)) = []) → v = 0) :=
  jaccard_max_suffix_overlap_score [[1, 2, 3], [4, 5]] [[9, 2, 3]]
    (by
      intro p1 h1 p2 h2
      simp only [List.mem_cons, List.mem_singleton] at h1 h2
      rcases h1 with rfl | rfl | h1 <;> simp_all)

/-- Claim C10: when every contained path is non-empty, the similarity score
terminates without error with a value in the closed interval `[0, 1]`; the
precondition is necessary: pairing a length-0 path from each collection
makes the denominator `len(path1) + len(path2) - count` equal to `0` and
the division fails with a `ZeroDivisionError`. -/
theorem jaccard_safety (α : Type) [DecidableEq α] :
    (∀ l1 l2 : List (List α), (∀ p ∈ l1, p ≠ []) → (∀ p ∈ l2, p ≠ []) →
      ∃ q, jaccard l1 l2 = .ok q ∧ 0 ≤ q ∧ q ≤ 1) ∧
    jaccard ([[]] : List (List ℕ)) [[]] = .error PyErr.zeroDivisionError := by
  constructor
  · intro l1 l2 h1 h2
    have hden : ∀ p1 ∈ l1, ∀ p2 ∈ l2, pairDenom p1 p2 ≠ 0 := by
      intro p1 hp1 p2 hp2 hz
      exact h1 p1 hp1 ((pairDenom_eq_zero_iff p1 p2).mp hz).1
    obtain ⟨r, hr, hle, hat, hub⟩ := jaccardOuter_spec l2 l1 0 hden
    refine ⟨r, hr, hle, ?_⟩
    rcases hat with h0 | ⟨q1, hq1, q2, hq2, hqe⟩
    · rw [h0]; norm_num
    · rw [hqe]
      exact pairScoreQ_le_one q1 q2 (hden q1 hq1 q2 hq2)
  · rfl

theorem jaccard_safety_witness :
    ∃ q, jaccard ([[1], [2]] : List (List ℕ)) [[2]] = .ok q ∧ 0 ≤ q ∧ q ≤ 1 :=
  (jaccard_safety ℕ).1 [[1], [2]] [[2]] (by simp) (by simp)

/-! ## Claim C8: softmax -/

theorem max_add_add_right_real (a b c : ℝ) : max (a + c) (b + c) = max a b + c := by
  rcases le_total a b with h | h
  · rw [max_eq_right h, max_eq_right (by linarith)]
  · rw [max_eq_left h, max_eq_left (by linarith)]

theorem foldl_max_map_add (xs : List ℝ) : ∀ x c : ℝ,
    (xs.map (fun y => y + c)).foldl max (x + c) = xs.foldl max x + c := by
  induction xs with
  | nil => intro x c; rfl
  | cons y ys ih =>
    intro x c
    simp only [List.map_cons, List.foldl_cons]
    rw [max_add_add_right_real, ih]

theorem list_sum_map_div (l : List ℝ) (s : ℝ) :
    (l.map (fun y => y / s)).sum = l.sum / s := by
  induction l with
  | nil => simp
  | cons x xs ih => simp [ih, add_div]

/-- Claim C8 (amended): for every *non-empty* finite vector `v` and every
temperature `t > 0`, `softmax v t` computes `exp((v - max v) / t)`
elementwise normalized by its sum, the result sums to exactly `1` in the
exact-real idealization of the float computation, and the result is
invariant under adding any constant to every element of `v`.  (The
non-emptiness hypothesis is forced by the counterexample: `np.max` of an
empty vector raises.) -/
theorem softmax_sum_one_shift_invariant (v : List ℝ) (t : ℝ)
    (hne : v ≠ []) (ht : 0 < t) :
    ∃ res, softmax v t = .ok res ∧ res.sum = 1 ∧
      ∀ c, softmax (v.map (fun y => y + c)) t = .ok res := by
  cases v with
  | nil => exact absurd rfl hne
  | cons x xs =>
    have hexp : ∀ z ∈ (x :: xs).map
        (fun xi => Real.exp ((xi - xs.foldl max x) / t)), 0 < z := by
      intro z hz
      obtain ⟨a, _, rfl⟩ := List.mem_map.mp hz
      exact Real.exp_pos _
    have hpos : 0 < ((x :: xs).map
        (fun xi => Real.exp ((xi - xs.foldl max x) / t))).sum :=
      List.sum_pos _ hexp (by simp)
    refine ⟨((x :: xs).map (fun xi => Real.exp ((xi - xs.foldl max x) / t))).map
      (fun ei => ei / ((x :: xs).map
        (fun xi => Real.exp ((xi - xs.foldl max x) / t))).sum), rfl, ?_, ?_⟩
    · rw [list_sum_map_div]
      exact div_self (ne_of_gt hpos)
    · intro c
      have hnp : npMax ((x :: xs).map (fun y => y + c)) =
          .ok (xs.foldl max x + c) := by
        simp only [List.map_cons, npMax]
        rw [foldl_max_map_add]
      simp only [softmax, hnp]
      have hE : ((x :: xs).map (fun y => y + c)).map
          (fun xi => Real.exp ((xi - (xs.foldl max x + c)) / t))
          = (x :: xs).map (fun xi => Real.exp ((xi - xs.foldl max x) / t)) := by
        rw [List.map_map]
        apply List.map_congr_left
        intro a _
        simp only [Function.comp_apply]
        congr 1
        ring
      rw [hE]

theorem softmax_sum_one_shift_invariant_witness :
    ∃ res, softmax [0] 1 = .ok res ∧ res.sum = 1 ∧
      ∀ c, softmax (([0] : List ℝ).map (fun y => y + c)) 1 = .ok res :=
  softmax_sum_one_shift_invariant [0] 1 (by simp) one_pos

/-- Claim C8 counterexample: on the empty vector (with temperature `1 > 0`)
`softmax` raises (`np.max` of an empty input is an error), so it returns no
elementwise result and nothing that sums to `1`, contradicting the claim
for *every* finite vector. -/
theorem softmax_empty_counterexample :
    softmax ([] : List ℝ) 1 = .error PyErr.valueError := rfl
